import Mathlib

/-
Verification of the dependency-graph and compile-cost analysis engine of
CppProjectAnalyzer.py (Cpp-Turbo-Compile).

The filesystem is modelled as a list of files, each a path (list of
components relative to the project root) together with its content
(`none` when the file cannot be read).  Python regular expressions are
embedded as explicit character-list scanners; where the analyzer iterates
a CPython hash set whose order is unspecified, the embedding takes the
enumeration order as an explicit parameter.
-/

set_option maxRecDepth 8000

namespace CppAnalyzer

/-- Path of a filesystem entry, as components relative to the project root. -/
abbrev FPath := List String

/-- One entry of the modelled filesystem: a file path and its content.
Content `none` models a file that cannot be read (the analyzer's
per-file try/except). -/
structure FSFile where
  path : FPath
  content : Option (List Char)
deriving DecidableEq

/-- The filesystem under the project root, in directory-iteration order
(the model of the order in which `Path.rglob` yields entries). -/
abbrev FS := List FSFile

/-- Whether `p` is a file on disk. -/
def isFile (fs : FS) (p : FPath) : Bool :=
  fs.any (fun f => f.path == p)

/-- Whether `p` is a directory on disk: a proper prefix of some file path. -/
def isDir (fs : FS) (p : FPath) : Bool :=
  fs.any (fun f => p.isPrefixOf f.path && p != f.path)

/-- Python `Path.exists()`: true for files and directories alike. -/
def pathExists (fs : FS) (p : FPath) : Bool :=
  isFile fs p || isDir fs p

/-- Reading a file: `none` when absent or unreadable. -/
def readFile (fs : FS) (p : FPath) : Option (List Char) :=
  match fs.find? (fun f => f.path == p) with
  | some f => f.content
  | none => none

/-- Python `\s` on ASCII: space, tab, newline, carriage return,
vertical tab, form feed. -/
def pyIsSpace (c : Char) : Bool :=
  c == ' ' || c == '\t' || c == '\n' || c == '\r' ||
    c == Char.ofNat 11 || c == Char.ofNat 12

/-- Drop a maximal run of whitespace (the regex piece `\s*`, which is
greedy and, against a disjoint follow set, backtrack-free). -/
def dropWs (s : List Char) : List Char := s.dropWhile pyIsSpace

/-- Strip a literal string from the front, or fail. -/
def stripLit : List Char → List Char → Option (List Char)
  | [], s => some s
  | _ :: _, [] => none
  | c :: cs, d :: ds => if c = d then stripLit cs ds else none

/-- Last path component, empty for the root. -/
def lastComponent (p : FPath) : String := p.getLast? |>.getD ""

/-- Dot-suffix of a file name following `pathlib.PurePath.suffix`: the
segment from the last dot on, unless that dot is the first or the last
character of the name (then the suffix is empty). -/
def nameSuffix (cs : List Char) : List Char :=
  let afterRev := cs.reverse.takeWhile (fun c => c != '.')
  if afterRev.length = cs.length then []
  else if afterRev.length = 0 then []
  else if afterRev.length + 1 = cs.length then []
  else '.' :: afterRev.reverse

/-- Python `Path(p).suffix` for the modelled path. -/
def pathSuffix (p : FPath) : String := String.mk (nameSuffix (lastComponent p).data)

/-- Relative path rendered with slashes, as `str(path.relative_to(root))`. -/
def pathStr (p : FPath) : String := String.intercalate "/" p

/-- Source-file extensions recognized by `discover_files` (`cpp_extensions`). -/
def cppExtensions : List String := [".cpp", ".cc", ".cxx", ".c++", ".C"]

/-- Header extensions recognized by `discover_files` (`header_extensions`). -/
def headerExtensions : List String := [".h", ".hpp", ".hh", ".hxx", ".h++", ".inl"]

/-- A file path matches the glob pattern `**/*<ext>` exactly when its last
component ends with `ext`. -/
def matchesExt (p : FPath) (ext : String) : Bool :=
  ext.data.isSuffixOf (lastComponent p).data

/-- Fuel-bounded `fnmatch.fnmatch` for patterns without character classes:
a star matches any (possibly empty) run, a question mark any single
character, everything else literally, anchored at both ends.  All
built-in default ignore patterns are wildcard-free, for which this is
plain string equality.  The fuel `pat.length + s.length + 1` always
suffices since every recursive call shrinks `pat.length + s.length`. -/
def fnmatchFuel : Nat → List Char → List Char → Bool
  | 0, _, _ => false
  | _ + 1, [], s => s.isEmpty
  | fuel + 1, p :: ps, [] => (p == '*') && fnmatchFuel fuel ps []
  | fuel + 1, p :: ps, c :: s =>
      if p = '*' then fnmatchFuel fuel ps (c :: s) || fnmatchFuel fuel (p :: ps) s
      else ((p == '?') || (p == c)) && fnmatchFuel fuel ps s

/-- `fnmatch.fnmatch s pat` (patterns without character classes). -/
def fnmatchStr (s pat : String) : Bool :=
  fnmatchFuel (pat.data.length + s.data.length + 1) pat.data s.data

/-- The built-in `default_ignore_patterns` set of `_should_ignore_file`,
verbatim.  Note every one of them is a wildcard-free fnmatch pattern. -/
def defaultIgnorePatterns : List String :=
  ["build/", "cmake-build-", ".git/", "third_party/", "external/", "test/",
   "tests/", "benchmark/", "vendor/", "node_modules/", "__pycache__/",
   ".vscode/", ".vs/", "Debug/", "Release/", "x64/", "x86/"]

/-- `_should_ignore_file`: whether any pattern (built-in defaults merged
with the user-supplied ones; a Python set union, but `any` over the merged
collection is order-independent) fnmatches the relative path string. -/
def shouldIgnoreFile (ignorePatterns : List String) (p : FPath) : Bool :=
  (defaultIgnorePatterns ++ ignorePatterns).any (fun pat => fnmatchStr (pathStr p) pat)

/-- Byte-wise order on strings (Python string comparison for ASCII). -/
def charListLe : List Char → List Char → Bool
  | [], _ => true
  | _ :: _, [] => false
  | a :: as, b :: bs => if a = b then charListLe as bs else a.toNat ≤ b.toNat

/-- Order used by `sorted` on `pathlib` paths: lexicographic on the
component tuples, components compared as strings. -/
def pathLe : FPath → FPath → Bool
  | [], _ => true
  | _ :: _, [] => false
  | a :: as, b :: bs => if a = b then pathLe as bs else charListLe a.data b.data

/-- Stable insertion into a `pathLe`-sorted list. -/
def insertSorted (p : FPath) : List FPath → List FPath
  | [] => [p]
  | q :: rest => if pathLe p q then p :: q :: rest else q :: insertSorted p rest

/-- Sorting for `sorted(all_files)`. -/
def sortPaths (l : List FPath) : List FPath := l.foldr insertSorted []

/-- The unordered result of the per-extension glob loop of
`discover_files`: every on-disk file whose name matches one of the
recognized extensions and which `_should_ignore_file` does not reject.
(The Python code iterates the extension set and globs per extension; no
file name can end in two distinct recognized extensions, so the union
is duplicate-free whenever the filesystem listing is.) -/
def discoveredUnsorted (fs : FS) (ignorePatterns : List String) : List FPath :=
  (fs.map (fun f => f.path)).filter (fun p =>
    (cppExtensions ++ headerExtensions).any (fun ext => matchesExt p ext)
      && !shouldIgnoreFile ignorePatterns p)

/-- `discover_files`: the sorted catalog of project C/C++ files. -/
def discoverFiles (fs : FS) (ignorePatterns : List String) : List FPath :=
  sortPaths (discoveredUnsorted fs ignorePatterns)

/-- Single attempt of the include-recognition regex
at one position: after maximal whitespace a hash, more whitespace, the
word include, more whitespace, an opening delimiter which may be either
an angle bracket or a double quote, a nonempty run of characters that are
neither a closing angle bracket nor a double quote (this is what the
regex captures: the delimiters are stripped), then one closing delimiter,
again either of the two.  Returns the captured name and the rest. -/
def matchIncludeAt (s : List Char) : Option (String × List Char) :=
  match dropWs s with
  | [] => none
  | c :: rest =>
    if c = '#' then
      match stripLit "include".data (dropWs rest) with
      | none => none
      | some s2 =>
        match dropWs s2 with
        | [] => none
        | d :: s4 =>
          if d = '<' ∨ d = '"' then
            match s4.drop (s4.takeWhile (fun ch => !(ch == '>' || ch == '"'))).length with
            | [] => none
            | e :: s6 =>
              if (e = '>' ∨ e = '"')
                  ∧ s4.takeWhile (fun ch => !(ch == '>' || ch == '"')) ≠ [] then
                some (String.mk (s4.takeWhile (fun ch => !(ch == '>' || ch == '"'))), s6)
              else none
          else none
    else none

/-- The `findall` of `_analyze_file_includes`: its pattern is compiled
without MULTILINE, so the caret only ever matches at position 0 and at
most one directive is found - the one opening the file after optional
leading whitespace.  Everything after the first match is never a caret
position again, so the scan stops. -/
def findIncludes (content : List Char) : List String :=
  match matchIncludeAt content with
  | some (name, _) => [name]
  | none => []

/-- Head match for the include-counting regex of `_detect_file_issues`
(hash sign after whitespace, then optional whitespace, then the word
include); returns the remainder on success. -/
def matchIncludeHead (s : List Char) : Option (List Char) :=
  match dropWs s with
  | [] => none
  | c :: rest => if c = '#' then stripLit "include".data (dropWs rest) else none

/-- Fuel-bounded scan for `findall` with MULTILINE over the counting
regex: a caret position is the start of the text or any position right
after a newline; matches are non-overlapping, left to right.  The fuel
`content.length + 1` always suffices: every step strictly consumes at
least one character. -/
def countIncludeFuel : Nat → List Char → Bool → Nat
  | 0, _, _ => 0
  | _ + 1, [], _ => 0
  | fuel + 1, c :: rest, atStart =>
      if atStart then
        match matchIncludeHead (c :: rest) with
        | some r => 1 + countIncludeFuel fuel r false
        | none => countIncludeFuel fuel rest (c == '\n')
      else countIncludeFuel fuel rest (c == '\n')

/-- Number of include lines counted by `_detect_file_issues`. -/
def includeCount (content : List Char) : Nat :=
  countIncludeFuel (content.length + 1) content true

/-- Split a character list at every occurrence of a separator. -/
def splitCharAux (sep : Char) : List Char → List Char → List (List Char)
  | [], acc => [acc.reverse]
  | c :: rest, acc =>
      if c = sep then acc.reverse :: splitCharAux sep rest []
      else splitCharAux sep rest (c :: acc)

/-- Splitting an include name on slashes, the effect of joining it onto a
`pathlib` path (names without dot or dot-dot segments). -/
def splitSlash (s : String) : FPath := (splitCharAux '/' s.data []).map String.mk

/-- Python `str.strip` of one character: remove that character from both
ends. -/
def stripChar (s : String) (c : Char) : String :=
  String.mk (((s.data.dropWhile (fun d => d == c)).reverse.dropWhile
    (fun d => d == c)).reverse)

/-- Whether a string starts with the given character. -/
def startsWithChar (s : String) (c : Char) : Bool :=
  match s.data with
  | [] => false
  | d :: _ => d == c

/-- The files yielded by `project_path.rglob(pattern)` for a wildcard-free
pattern, in filesystem order: files whose relative path ends with the
pattern's components.  Directories matched by rglob are skipped here
because the caller keeps only `is_file()` hits, and the first file wins. -/
def rglobFiles (fs : FS) (pat : FPath) : List FPath :=
  (fs.map (fun f => f.path)).filter (fun p => pat.isSuffixOf p)

/-- The extension fallback list of `_resolve_include_path`. -/
def resolveExts : List String := ["", ".h", ".hpp", ".hh", ".hxx"]

/-- The root-then-recursive search loop of `_resolve_include_path`: for
each extension, first the candidate directly under the project root
(`exists()`, so directories also count), then the first file found by a
recursive search; the next extension is tried only after both fail. -/
def searchExts (fs : FS) (name : String) : List String → Option FPath
  | [] => none
  | ext :: rest =>
    let candPath := splitSlash (if ext = "" then name else name ++ ext)
    if pathExists fs candPath then some candPath
    else
      match (rglobFiles fs candPath).head? with
      | some hit => some hit
      | none => searchExts fs name rest

/-- `_resolve_include_path`, translated clause by clause:
the system-header guard asks the name to start with an opening angle
bracket AND to contain a closing one; the quoted branch asks it to start
with a double quote, strips the quotes, and tries the candidate relative
to the including file's directory; otherwise - and on a miss of that
candidate - the root/recursive extension loop runs.  (Because the
recognizer strips the delimiters, names coming from it contain neither
delimiter, making the first two branches unreachable in the pipeline.) -/
def resolveIncludePath (fs : FS) (sourceFile : FPath) (includeName0 : String) :
    Option FPath :=
  if startsWithChar includeName0 '<' && includeName0.data.contains '>' then none
  else if startsWithChar includeName0 '"' then
    if pathExists fs (sourceFile.dropLast ++ splitSlash (stripChar includeName0 '"'))
    then some (sourceFile.dropLast ++ splitSlash (stripChar includeName0 '"'))
    else searchExts fs (stripChar includeName0 '"') resolveExts
  else searchExts fs includeName0 resolveExts

/-- Severity levels of `config.enums.Severity`. -/
inductive Severity
  | low
  | medium
  | high
deriving DecidableEq

/-- Issue kinds produced by the analyzer. -/
inductive IssueKind
  | excessiveIncludes
  | highComplexity
  | largeHeader
  | circularDependency
  | unusedHeader
deriving DecidableEq

/-- One diagnostic record.  The Python dict stores the subject as a
string (for cycle issues the label is a running cycle number, and the
message spells out the cycle path); here the subject path is kept
structured (empty for cycle issues) and the enumerated cycle path is
carried explicitly. -/
structure Issue where
  kind : IssueKind
  file : FPath
  severity : Severity
  cyclePath : List FPath
deriving DecidableEq

/-- The threshold fields of `AnalysisConfig` used by the modelled checks
(the boolean toggles are modelled in the enabled position). -/
structure AnalysisConfig where
  maxHeaderIncludes : Nat
  maxFileComplexity : Nat
  maxHeaderSize : Nat
deriving DecidableEq

/-- The dataclass defaults: 20 includes, complexity 50, 10000 bytes. -/
def defaultAnalysisConfig : AnalysisConfig := ⟨20, 50, 10000⟩

/-- `_detect_file_issues`: the three per-file threshold checks, in
source order, each strict (a count equal to its threshold does not
trigger).  The complexity scorer is passed in as a function. -/
def detectFileIssues (cfg : AnalysisConfig) (complexityOf : List Char → Nat)
    (filePath : FPath) (content : List Char) : List Issue :=
  (if cfg.maxHeaderIncludes < includeCount content then
    [⟨IssueKind.excessiveIncludes, filePath, Severity.medium, []⟩] else [])
  ++ (if cfg.maxFileComplexity < complexityOf content then
    [⟨IssueKind.highComplexity, filePath, Severity.high, []⟩] else [])
  ++ (if (pathSuffix filePath = ".h" ∨ pathSuffix filePath = ".hpp" ∨
        pathSuffix filePath = ".hh") ∧ cfg.maxHeaderSize < content.length then
    [⟨IssueKind.largeHeader, filePath, Severity.medium, []⟩] else [])

/-- The mutable analysis state of the `CppProjectAnalyzer` object: file
sizes, the header-frequency counter, the include graph as adjacency
sets (kept in insertion order), the reverse-dependency counter, and the
accumulated issues. -/
structure AnalyzerState where
  fileSizes : List (FPath × Nat)
  headerFrequency : String → Nat
  includeGraph : FPath → List FPath
  dependencyCount : FPath → Nat
  issues : List Issue

/-- The freshly constructed analyzer state. -/
def initState : AnalyzerState :=
  { fileSizes := []
    headerFrequency := fun _ => 0
    includeGraph := fun _ => []
    dependencyCount := fun _ => 0
    issues := [] }

/-- Set insertion for an adjacency set (membership test, so repeated
insertion changes nothing). -/
def addToSet (l : List FPath) (x : FPath) : List FPath :=
  if x ∈ l then l else l ++ [x]

/-- The body of the per-include loop of `_analyze_file_includes`: count
the raw name in the frequency counter; then, if resolution succeeds, add
the edge to the includer's adjacency set and increment the target's
reverse-dependency counter (an unconditional counter increment). -/
def processInclude (fs : FS) (filePath : FPath) (st : AnalyzerState)
    (included : String) : AnalyzerState :=
  let st1 := { st with headerFrequency := fun n =>
    if n = included then st.headerFrequency n + 1 else st.headerFrequency n }
  match resolveIncludePath fs filePath included with
  | none => st1
  | some target =>
    { st1 with
      includeGraph := fun p =>
        if p = filePath then addToSet (st1.includeGraph p) target
        else st1.includeGraph p
      dependencyCount := fun p =>
        if p = target then st1.dependencyCount p + 1 else st1.dependencyCount p }

/-- `_analyze_file_includes` on one file: on a read failure the except
clause swallows everything and the state is untouched; otherwise the file
size is recorded, each recognized include is processed, and the per-file
issue checks run on the same content. -/
def analyzeFileIncludes (fs : FS) (cfg : AnalysisConfig)
    (complexityOf : List Char → Nat) (st : AnalyzerState) (filePath : FPath) :
    AnalyzerState :=
  match readFile fs filePath with
  | none => st
  | some content =>
    let st1 := { st with fileSizes := st.fileSizes ++ [(filePath, content.length)] }
    let st2 := (findIncludes content).foldl (processInclude fs filePath) st1
    { st2 with issues := st2.issues ++ detectFileIssues cfg complexityOf filePath content }

/-- Sequential per-file pass over a list of files. -/
def runFiles (fs : FS) (cfg : AnalysisConfig) (complexityOf : List Char → Nat)
    (files : List FPath) (st : AnalyzerState) : AnalyzerState :=
  files.foldl (analyzeFileIncludes fs cfg complexityOf) st

/-- State after the per-file phase of `analyze_project` (sequential
mode) over the discovered catalog. -/
def analysisState (fs : FS) (cfg : AnalysisConfig)
    (complexityOf : List Char → Nat) (ignorePatterns : List String) :
    AnalyzerState :=
  runFiles fs cfg complexityOf (discoverFiles fs ignorePatterns) initState

/-- State of the depth-first search of `_detect_circular_dependencies`:
the visited set, the recursion stack in insertion order, and the cycles
collected so far. -/
structure DfsState where
  visited : List FPath
  stack : List FPath
  cycles : List (List FPath)

/-- The recursive walk of `_detect_circular_dependencies`.  The code
keeps `recursion_stack` as a CPython hash set and reads it back with
`list(...)`, whose element order is unspecified (hash-dependent); the
parameter `setOrder` models that enumeration and is expected to permute
its input.  On meeting a node already on the stack, the cycle is the
enumeration from that node's position onward.  The fuel bounds the
recursion depth; every nested call pushes a distinct, so-far-unvisited
project path first, so any fuel beyond the number of distinct paths on
disk is enough. -/
def dfs (graph : FPath → List FPath) (setOrder : List FPath → List FPath) :
    Nat → DfsState → FPath → DfsState
  | 0, s, _ => s
  | fuel + 1, s, file =>
    if file ∈ s.stack then
      let enum := setOrder s.stack
      { s with cycles := s.cycles ++ [enum.drop (enum.indexOf file)] }
    else if file ∈ s.visited then s
    else
      let s1 := { s with visited := s.visited ++ [file], stack := s.stack ++ [file] }
      let s2 := (graph file).foldl (fun acc dep => dfs graph setOrder fuel acc dep) s1
      { s2 with stack := s2.stack.erase file }

/-- Ample recursion fuel: more than the number of distinct paths (files
and directories) under the root. -/
def dfsFuel (fs : FS) : Nat := fs.foldl (fun n f => n + f.path.length + 2) 2

/-- The outer loop of `_detect_circular_dependencies`: walk every
catalog file not yet visited, in catalog order. -/
def detectCircularDeps (files : List FPath) (graph : FPath → List FPath)
    (setOrder : List FPath → List FPath) (fuel : Nat) : List (List FPath) :=
  (files.foldl (fun s f =>
    if f ∈ s.visited then s else dfs graph setOrder fuel s f)
    ⟨[], [], []⟩).cycles

/-- One CIRCULAR_DEPENDENCY issue per collected cycle, severity High,
the message enumerating the cycle path (carried here structurally). -/
def circularIssues (cycles : List (List FPath)) : List Issue :=
  cycles.map (fun cyc => ⟨IssueKind.circularDependency, [], Severity.high, cyc⟩)

/-- The headers considered by `_detect_unused_headers`: catalog files
whose suffix is dot-h, dot-hpp or dot-hh (note: not the other recognized
header extensions). -/
def headerCandidates (files : List FPath) : List FPath :=
  files.filter (fun f =>
    pathSuffix f == ".h" || pathSuffix f == ".hpp" || pathSuffix f == ".hh")

/-- Whether some catalog file has an edge to `h` (membership in the
union of the adjacency sets; only catalog files ever gain adjacency). -/
def isIncludedTarget (files : List FPath) (graph : FPath → List FPath)
    (h : FPath) : Bool :=
  files.any (fun f => h ∈ graph f)

/-- `_detect_unused_headers`: the candidate headers never appearing in
any adjacency set (the Python code iterates the resulting set; here the
catalog order is kept). -/
def unusedHeaders (files : List FPath) (graph : FPath → List FPath) :
    List FPath :=
  (headerCandidates files).filter (fun h => !isIncludedTarget files graph h)

/-- One UNUSED_HEADER issue per unused header, severity Low. -/
def unusedHeaderIssues (files : List FPath) (graph : FPath → List FPath) :
    List Issue :=
  (unusedHeaders files graph).map
    (fun h => ⟨IssueKind.unusedHeader, h, Severity.low, []⟩)

/-- The full issue list after `analyze_project`: per-file issues in
catalog order, then cycle issues, then unused-header issues. -/
def analysisIssues (fs : FS) (cfg : AnalysisConfig)
    (complexityOf : List Char → Nat) (ignorePatterns : List String)
    (setOrder : List FPath → List FPath) : List Issue :=
  let files := discoverFiles fs ignorePatterns
  let st := analysisState fs cfg complexityOf ignorePatterns
  st.issues
    ++ circularIssues (detectCircularDeps files st.includeGraph setOrder (dfsFuel fs))
    ++ unusedHeaderIssues files st.includeGraph

/-- Number of lines as `len(f.readlines())` reports it: newline count,
plus one for a final unterminated line. -/
def countLines (content : List Char) : Nat :=
  match content with
  | [] => 0
  | _ => content.count '\n' + (if content.getLast? = some '\n' then 0 else 1)

/-- The fixed empirical constant of `_estimate_build_times`, in seconds
per line.  The Python arithmetic is machine floating point; the formula
is modelled exactly over the rationals. -/
def baseCompileTimePerLine : ℚ := 1 / 1000

/-- The per-file estimate formula of `_estimate_build_times`. -/
def estimateFormula (lines complexity outDeg : Nat) : ℚ :=
  (lines : ℚ) * baseCompileTimePerLine * (1 + (complexity : ℚ) * (1 / 100))
    * (1 + (outDeg : ℚ) * (1 / 10))

/-- The suffix test of `_estimate_build_times`: only these three source
extensions receive an entry (capital-C and c-plus-plus sources do not). -/
def isEstimatedSource (f : FPath) : Prop :=
  pathSuffix f = ".cpp" ∨ pathSuffix f = ".cc" ∨ pathSuffix f = ".cxx"

instance (f : FPath) : Decidable (isEstimatedSource f) := by
  unfold isEstimatedSource
  infer_instance

/-- The estimate recorded for one handled file: the formula on line
count, complexity and fan-out, or 0 when the file cannot be read (the
except clause of `_estimate_build_times`). -/
def estValue (fs : FS) (complexityOf : List Char → Nat)
    (graph : FPath → List FPath) (f : FPath) : ℚ :=
  match readFile fs f with
  | none => 0
  | some content =>
      estimateFormula (countLines content) (complexityOf content) ((graph f).length)

/-- `_estimate_build_times`: only files with suffix dot-cpp, dot-cc or
dot-cxx receive an entry; an unreadable such file gets estimate 0. -/
def estimateBuildTimes (fs : FS) (complexityOf : List Char → Nat)
    (files : List FPath) (graph : FPath → List FPath) : List (FPath × ℚ) :=
  files.foldl (fun acc f =>
    if isEstimatedSource f then acc ++ [(f, estValue fs complexityOf graph f)]
    else acc) []

/-- The build-time table of a full run. -/
def analysisBuildTimes (fs : FS) (cfg : AnalysisConfig)
    (complexityOf : List Char → Nat) (ignorePatterns : List String) :
    List (FPath × ℚ) :=
  estimateBuildTimes fs complexityOf (discoverFiles fs ignorePatterns)
    (analysisState fs cfg complexityOf ignorePatterns).includeGraph

/-- Lookup in the build-time table. -/
def lookupEstimate (l : List (FPath × ℚ)) (f : FPath) : Option ℚ :=
  (l.find? (fun e => e.1 == f)).map (fun e => e.2)

/-- The aggregate of `_get_analysis_summary`: the sum of the recorded
per-file estimates. -/
def totalEstimatedBuildTime (l : List (FPath × ℚ)) : ℚ :=
  (l.map (fun e => e.2)).sum

/-- A trivial complexity oracle used to instantiate the parameterized
theorems on concrete inputs. -/
def zeroComplexity : List Char → Nat := fun _ => 0

/-- The issue list one file contributes during the per-file pass: empty
when the file cannot be read, otherwise the three threshold checks on
its content. -/
def fileIssuesOf (fs : FS) (cfg : AnalysisConfig) (complexityOf : List Char → Nat)
    (g : FPath) : List Issue :=
  match readFile fs g with
  | some c => detectFileIssues cfg complexityOf g c
  | none => []

/-- The at most one resolved include target a file contributes to the
graph (the anchored recognizer finds at most one directive per file). -/
def edgeOf (fs : FS) (g : FPath) : Option FPath :=
  match readFile fs g with
  | none => none
  | some c =>
    match findIncludes c with
    | [] => none
    | n :: _ => resolveIncludePath fs g n

/-- Resolution procedure exactly as claim C2 words it (spec-side
definition, for comparison with the code's `resolveIncludePath`): (a)
the name relative to the including file's directory; (b) the name
relative to the project root with each of the suffixes appended; (c) a
recursive search anywhere under the project root; the first existing
candidate wins. -/
def resolveClaimOrder (fs : FS) (sourceFile : FPath) (includeName : String) :
    Option FPath :=
  let relCand := sourceFile.dropLast ++ splitSlash includeName
  if pathExists fs relCand then some relCand
  else
    match (resolveExts.filterMap (fun ext =>
      let c := splitSlash (if ext = "" then includeName else includeName ++ ext)
      if pathExists fs c then some c else none)).head? with
    | some c => some c
    | none => (rglobFiles fs (splitSlash includeName)).head?

/-- Project for C1: a source file whose angle-bracket include names a
file that exists at the project root. -/
def fsAngle : FS :=
  [⟨["main.cpp"], some "#include <mylib.h>".data⟩,
   ⟨["mylib.h"], some []⟩]

/-- Project for C2: the included name exists both next to the including
file and at the project root. -/
def fsShadow : FS :=
  [⟨["foo.h"], some []⟩,
   ⟨["src", "foo.h"], some []⟩,
   ⟨["src", "main.cpp"], some "#include \"foo.h\"".data⟩]

/-- Project for C3: two headers including each other. -/
def fsCycle : FS :=
  [⟨["x.h"], some "#include \"y.h\"".data⟩,
   ⟨["y.h"], some "#include \"x.h\"".data⟩]

/-- Project for C5: a quoted include resolving to an existing file that
the catalog does not contain (extension not recognized). -/
def fsOutside : FS :=
  [⟨["main.cpp"], some "#include \"notes.txt\"".data⟩,
   ⟨["notes.txt"], some []⟩]

/-- Project for C6: a lone header at the root. -/
def fsLoneHeader : FS := [⟨["a.h"], some []⟩]

/-- Project for C7: an unreferenced header whose recognized extension
lies outside the hardcoded unused-header suffix set. -/
def fsHxx : FS := [⟨["a.hxx"], some []⟩]

/-- Project for C8: a ten-line source file with the capital-C extension. -/
def fsBigC : FS :=
  [⟨["main.C"], some "a\nb\nc\nd\ne\nf\ng\nh\ni\nj\n".data⟩]

/-- Project for C9: a header inside the build directory. -/
def fsBuildDir : FS :=
  [⟨["build", "a.h"], some []⟩, ⟨["src", "b.cpp"], some []⟩]

/-- C1: the claim says an angle-bracket include is never resolved to a
project file and never contributes an edge.  The recognizer's capture
group strips the delimiters, so the resolver's angle-bracket guard never
fires and the bare name is searched under the project root like any
other: in `fsAngle`, the directive naming mylib.h in angle brackets
produces the edge main.cpp to mylib.h and bumps its reverse-dependency
counter, contradicting the claim (the spec's stated design intent, and
the intent of the resolver's dead guard). -/
theorem C1_angle_include_gets_edge :
    (analysisState fsAngle defaultAnalysisConfig zeroComplexity []).includeGraph
      ["main.cpp"] = [["mylib.h"]]
    ∧ (analysisState fsAngle defaultAnalysisConfig zeroComplexity
        []).dependencyCount ["mylib.h"] = 1
    ∧ (analysisState fsAngle defaultAnalysisConfig zeroComplexity
        []).headerFrequency "mylib.h" = 1 := by
  refine ⟨by decide, by decide, by decide⟩

/-- C3: the claim says the mutual-include project yields exactly one
CircularDependency issue of severity High whose path has length 2 and
lists the stack from the re-visited node onward in traversal order.  The
code stores the recursion stack as a hash set and enumerates it with
`list(...)`; when that enumeration returns insertion order the path is
the claimed two-node one, but when it returns the opposite order (both
occur under CPython's randomized string hashing) the reported path is
the one-node list containing only x.h.  Exactly one High issue is
emitted either way; the length-2, traversal-order path is not
guaranteed. -/
theorem C3_cycle_path_depends_on_set_order :
    analysisIssues fsCycle defaultAnalysisConfig zeroComplexity [] id
      = [⟨IssueKind.circularDependency, [], Severity.high, [["x.h"], ["y.h"]]⟩]
    ∧ analysisIssues fsCycle defaultAnalysisConfig zeroComplexity [] List.reverse
      = [⟨IssueKind.circularDependency, [], Severity.high, [["x.h"]]⟩] := by
  refine ⟨by decide, by decide⟩

/-- C9: the claim says a file under the build directory is excluded by
the built-in default ignore patterns.  Those patterns are wildcard-free
fnmatch patterns, and fnmatch anchors at both ends, so the pattern
matching the build directory matches only the literal string naming the
directory itself and never any file path beneath it: build/a.h is
discovered. -/
theorem C9_default_ignores_inert :
    discoverFiles fsBuildDir [] = [["build", "a.h"], ["src", "b.cpp"]]
    ∧ shouldIgnoreFile [] ["build", "a.h"] = false
    ∧ fnmatchStr "build/a.h" "build/" = false
    ∧ fnmatchStr "build/" "build/" = true := by
  refine ⟨by decide, by decide, by decide, by decide⟩

/-- C2: the claim's candidate order tries the name relative to the
including file's directory first; but the recognizer hands the resolver
a delimiter-stripped name, so the quote-guarded relative branch of the
resolver never fires.  In `fsShadow` the directive in src/main.cpp
names foo.h, which exists both as src/foo.h (the claimed first
candidate) and at the project root: the code resolves to the root file
and the edge goes there, while the claimed order picks src/foo.h. -/
theorem C2_counterexample :
    (analysisState fsShadow defaultAnalysisConfig zeroComplexity []).includeGraph
      ["src", "main.cpp"] = [["foo.h"]]
    ∧ resolveIncludePath fsShadow ["src", "main.cpp"] "foo.h" = some ["foo.h"]
    ∧ resolveClaimOrder fsShadow ["src", "main.cpp"] "foo.h"
        = some ["src", "foo.h"] := by
  refine ⟨by decide, by decide, by decide⟩

/-- C5: the claim says every edge endpoint is a catalog path and
anything resolving outside the catalog is treated as external.  The
resolver checks the disk, not the catalog: in `fsOutside` the quoted
include of notes.txt resolves to an existing file whose extension is not
recognized, so the catalog holds only main.cpp while the graph gains the
edge from main.cpp to notes.txt. -/
theorem C5_counterexample :
    ["notes.txt"] ∈ (analysisState fsOutside defaultAnalysisConfig zeroComplexity
      []).includeGraph ["main.cpp"]
    ∧ discoverFiles fsOutside [] = [["main.cpp"]] := by
  refine ⟨by decide, by decide⟩

/-- C6: the claim says processing a second include of the same resolved
target from the same file leaves both the adjacency sets and the
reverse-dependency counters unchanged.  The adjacency set is indeed
unchanged, but the counter is an unconditional per-occurrence increment:
running the include-processing step twice for the same name takes the
counter of a.h from 1 to 2. -/
theorem C6_counterexample :
    ((processInclude fsLoneHeader ["main.cpp"]
        (processInclude fsLoneHeader ["main.cpp"] initState "a.h") "a.h").includeGraph
          ["main.cpp"]
      = (processInclude fsLoneHeader ["main.cpp"] initState "a.h").includeGraph
          ["main.cpp"])
    ∧ (processInclude fsLoneHeader ["main.cpp"] initState "a.h").dependencyCount
        ["a.h"] = 1
    ∧ (processInclude fsLoneHeader ["main.cpp"]
        (processInclude fsLoneHeader ["main.cpp"] initState "a.h") "a.h").dependencyCount
        ["a.h"] = 2 := by
  refine ⟨by decide, by decide, by decide⟩

/-- C7: the claim ranges over every recognized header file in the
catalog, but `_detect_unused_headers` only considers the suffixes dot-h,
dot-hpp and dot-hh.  In `fsHxx` the file a.hxx is a recognized,
discovered header that is never an include target (reverse-dependency
count zero), yet the run emits no UnusedHeader issue at all. -/
theorem C7_counterexample :
    discoverFiles fsHxx [] = [["a.hxx"]]
    ∧ ".hxx" ∈ headerExtensions
    ∧ (analysisState fsHxx defaultAnalysisConfig zeroComplexity []).dependencyCount
        ["a.hxx"] = 0
    ∧ analysisIssues fsHxx defaultAnalysisConfig zeroComplexity [] id = [] := by
  refine ⟨by decide, by decide, by decide, by decide⟩

/-- C8: the claim ranges over every source file, but
`_estimate_build_times` only handles the suffixes dot-cpp, dot-cc and
dot-cxx.  In `fsBigC` the ten-line file main.C is a recognized,
discovered source file, yet it receives no estimate at all and the
aggregate is 0, while the claimed formula yields a hundredth of a
second for it. -/
theorem C8_counterexample :
    discoverFiles fsBigC [] = [["main.C"]]
    ∧ ".C" ∈ cppExtensions
    ∧ analysisBuildTimes fsBigC defaultAnalysisConfig zeroComplexity [] = []
    ∧ totalEstimatedBuildTime
        (analysisBuildTimes fsBigC defaultAnalysisConfig zeroComplexity []) = 0
    ∧ estimateFormula 10 0 0 = 1 / 100 := by
  refine ⟨by decide, by decide, by decide, by rfl, by
    norm_num [estimateFormula, baseCompileTimePerLine]⟩

theorem processInclude_issues (fs : FS) (f : FPath) (st : AnalyzerState)
    (n : String) : (processInclude fs f st n).issues = st.issues := by
  unfold processInclude
  cases resolveIncludePath fs f n <;> rfl

theorem foldl_processInclude_issues (fs : FS) (f : FPath) (l : List String)
    (st : AnalyzerState) : (l.foldl (processInclude fs f) st).issues = st.issues := by
  induction l generalizing st with
  | nil => rfl
  | cons n rest ih => rw [List.foldl_cons, ih, processInclude_issues]

theorem analyzeFile_issues (fs : FS) (cfg : AnalysisConfig)
    (cpl : List Char → Nat) (st : AnalyzerState) (f : FPath) :
    (analyzeFileIncludes fs cfg cpl st f).issues
      = st.issues ++ fileIssuesOf fs cfg cpl f := by
  unfold analyzeFileIncludes fileIssuesOf
  cases readFile fs f with
  | none => simp
  | some c => simp [foldl_processInclude_issues]

theorem runFiles_issues (fs : FS) (cfg : AnalysisConfig) (cpl : List Char → Nat)
    (files : List FPath) (st : AnalyzerState) :
    (runFiles fs cfg cpl files st).issues
      = st.issues ++ files.flatMap (fileIssuesOf fs cfg cpl) := by
  induction files generalizing st with
  | nil => simp [runFiles]
  | cons g rest ih =>
    rw [runFiles, List.foldl_cons, ← runFiles, ih, analyzeFile_issues]
    simp

theorem mem_detectFileIssues_iff (cfg : AnalysisConfig) (cpl : List Char → Nat)
    (g : FPath) (c : List Char) (i : Issue) :
    i ∈ detectFileIssues cfg cpl g c ↔
      (i = ⟨IssueKind.excessiveIncludes, g, Severity.medium, []⟩
        ∧ cfg.maxHeaderIncludes < includeCount c)
      ∨ (i = ⟨IssueKind.highComplexity, g, Severity.high, []⟩
        ∧ cfg.maxFileComplexity < cpl c)
      ∨ (i = ⟨IssueKind.largeHeader, g, Severity.medium, []⟩
        ∧ (pathSuffix g = ".h" ∨ pathSuffix g = ".hpp" ∨ pathSuffix g = ".hh")
        ∧ cfg.maxHeaderSize < c.length) := by
  by_cases h1 : cfg.maxHeaderIncludes < includeCount c <;>
  by_cases h2 : cfg.maxFileComplexity < cpl c <;>
  by_cases h3 : (pathSuffix g = ".h" ∨ pathSuffix g = ".hpp" ∨ pathSuffix g = ".hh")
      ∧ cfg.maxHeaderSize < c.length <;>
  simp [detectFileIssues, h1, h2, h3]

theorem mem_circularIssues (cycles : List (List FPath)) (i : Issue)
    (h : i ∈ circularIssues cycles) : i.kind = IssueKind.circularDependency := by
  unfold circularIssues at h
  obtain ⟨cyc, _, rfl⟩ := List.mem_map.1 h
  rfl

theorem mem_unusedHeaderIssues_kind (files : List FPath)
    (graph : FPath → List FPath) (i : Issue)
    (h : i ∈ unusedHeaderIssues files graph) : i.kind = IssueKind.unusedHeader := by
  unfold unusedHeaderIssues at h
  obtain ⟨x, _, rfl⟩ := List.mem_map.1 h
  rfl

theorem mem_analysisState_issues (fs : FS) (cfg : AnalysisConfig)
    (cpl : List Char → Nat) (pats : List String) (i : Issue) :
    i ∈ (analysisState fs cfg cpl pats).issues ↔
      ∃ g ∈ discoverFiles fs pats, i ∈ fileIssuesOf fs cfg cpl g := by
  rw [analysisState, runFiles_issues]
  simp [initState]

/-- C4: for every analyzed file and configured threshold, an
ExcessiveIncludes issue for the file is emitted exactly when its counted
include lines strictly exceed the threshold (so a file hitting the
threshold exactly is not flagged); the emitted issue carries severity
Medium.  The dataclass default for the threshold is 20. -/
theorem C4_excessive_includes_iff (fs : FS) (cfg : AnalysisConfig)
    (cpl : List Char → Nat) (pats : List String)
    (setOrder : List FPath → List FPath) (f : FPath) (c : List Char)
    (hf : f ∈ discoverFiles fs pats) (hc : readFile fs f = some c) :
    (∃ i ∈ analysisIssues fs cfg cpl pats setOrder,
        i.kind = IssueKind.excessiveIncludes ∧ i.file = f
          ∧ i.severity = Severity.medium)
      ↔ cfg.maxHeaderIncludes < includeCount c := by
  constructor
  · rintro ⟨i, hi, hk, hfile, -⟩
    simp only [analysisIssues] at hi
    rcases List.mem_append.1 hi with hi1 | hunused
    · rcases List.mem_append.1 hi1 with hst | hcirc
      · obtain ⟨g, hg, higf⟩ := (mem_analysisState_issues fs cfg cpl pats i).1 hst
        unfold fileIssuesOf at higf
        cases hr : readFile fs g with
        | none => rw [hr] at higf; cases higf
        | some cg =>
          rw [hr] at higf
          rcases (mem_detectFileIssues_iff cfg cpl g cg i).1 higf with
            ⟨hieq, hcond⟩ | ⟨hieq, -⟩ | ⟨hieq, -⟩
          · have hgf : g = f := by rw [hieq] at hfile; exact hfile
            subst hgf
            rw [hc] at hr
            cases hr
            exact hcond
          · rw [hieq] at hk; cases hk
          · rw [hieq] at hk; cases hk
      · rw [mem_circularIssues _ i hcirc] at hk; cases hk
    · rw [mem_unusedHeaderIssues_kind _ _ i hunused] at hk; cases hk
  · intro hcond
    refine ⟨⟨IssueKind.excessiveIncludes, f, Severity.medium, []⟩, ?_, rfl, rfl, rfl⟩
    simp only [analysisIssues]
    refine List.mem_append.2 (Or.inl (List.mem_append.2 (Or.inl ?_)))
    refine (mem_analysisState_issues fs cfg cpl pats _).2 ⟨f, hf, ?_⟩
    unfold fileIssuesOf
    rw [hc]
    exact (mem_detectFileIssues_iff cfg cpl f c _).2 (Or.inl ⟨rfl, hcond⟩)

/-- Witness for C4 on the mutual-include project: x.h is in the catalog
with one include line, so with the default threshold 20 no
ExcessiveIncludes issue exists for it and the equivalence is exercised. -/
theorem C4_excessive_includes_iff_witness :
    (["x.h"] ∈ discoverFiles fsCycle []
      ∧ readFile fsCycle ["x.h"] = some "#include \"y.h\"".data)
    ∧ ((∃ i ∈ analysisIssues fsCycle defaultAnalysisConfig zeroComplexity [] id,
          i.kind = IssueKind.excessiveIncludes ∧ i.file = ["x.h"]
            ∧ i.severity = Severity.medium)
        ↔ defaultAnalysisConfig.maxHeaderIncludes
            < includeCount "#include \"y.h\"".data) :=
  ⟨⟨by decide, by decide⟩,
    C4_excessive_includes_iff fsCycle defaultAnalysisConfig zeroComplexity [] id
      ["x.h"] "#include \"y.h\"".data (by decide) (by decide)⟩

theorem addToSet_idem (l : List FPath) (t : FPath) :
    addToSet (addToSet l t) t = addToSet l t := by
  unfold addToSet
  by_cases h : t ∈ l <;> simp [h]

theorem processInclude_graph (fs : FS) (f : FPath) (st : AnalyzerState)
    (n : String) (p : FPath) :
    (processInclude fs f st n).includeGraph p
      = if p = f then
          (match resolveIncludePath fs f n with
            | some t => addToSet (st.includeGraph f) t
            | none => st.includeGraph f)
        else st.includeGraph p := by
  unfold processInclude
  cases resolveIncludePath fs f n with
  | none => by_cases hp : p = f <;> simp [hp]
  | some t => by_cases hp : p = f <;> simp [hp]

theorem processInclude_count (fs : FS) (f : FPath) (st : AnalyzerState)
    (n : String) (p : FPath) :
    (processInclude fs f st n).dependencyCount p
      = st.dependencyCount p
        + (if resolveIncludePath fs f n = some p then 1 else 0) := by
  unfold processInclude
  cases h : resolveIncludePath fs f n with
  | none => simp
  | some t =>
    by_cases hp : p = t
    · subst hp; simp
    · simp [hp, Ne.symm hp]

theorem processInclude_freq_self (fs : FS) (f : FPath) (st : AnalyzerState)
    (n : String) :
    (processInclude fs f st n).headerFrequency n = st.headerFrequency n + 1 := by
  unfold processInclude
  cases resolveIncludePath fs f n <;> simp

theorem analyzeFile_graph (fs : FS) (cfg : AnalysisConfig) (cpl : List Char → Nat)
    (st : AnalyzerState) (g p : FPath) :
    (analyzeFileIncludes fs cfg cpl st g).includeGraph p
      = if p = g then
          (match edgeOf fs g with
            | some t => addToSet (st.includeGraph g) t
            | none => st.includeGraph g)
        else st.includeGraph p := by
  unfold analyzeFileIncludes edgeOf
  cases hr : readFile fs g with
  | none => by_cases hp : p = g <;> simp [hp]
  | some c =>
    cases hm : findIncludes c with
    | nil =>
      simp only [hm, List.foldl_nil]
      by_cases hp : p = g <;> simp [hp]
    | cons n rest =>
      have hrest : rest = [] := by
        unfold findIncludes at hm
        cases hq : matchIncludeAt c with
        | none => rw [hq] at hm; cases hm
        | some nr => rw [hq] at hm; cases hm; rfl
      subst hrest
      simp only [hm, List.foldl_cons, List.foldl_nil]
      rw [processInclude_graph]

theorem analyzeFile_count (fs : FS) (cfg : AnalysisConfig) (cpl : List Char → Nat)
    (st : AnalyzerState) (g p : FPath) :
    (analyzeFileIncludes fs cfg cpl st g).dependencyCount p
      = st.dependencyCount p + (if edgeOf fs g = some p then 1 else 0) := by
  unfold analyzeFileIncludes edgeOf
  cases hr : readFile fs g with
  | none => simp
  | some c =>
    cases hm : findIncludes c with
    | nil => simp only [hm, List.foldl_nil]; simp
    | cons n rest =>
      have hrest : rest = [] := by
        unfold findIncludes at hm
        cases hq : matchIncludeAt c with
        | none => rw [hq] at hm; cases hm
        | some nr => rw [hq] at hm; cases hm; rfl
      subst hrest
      simp only [hm, List.foldl_cons, List.foldl_nil]
      rw [processInclude_count]

theorem runFiles_graph (fs : FS) (cfg : AnalysisConfig) (cpl : List Char → Nat)
    (files : List FPath) (st : AnalyzerState) (p : FPath) :
    (runFiles fs cfg cpl files st).includeGraph p
      = if p ∈ files then
          (match edgeOf fs p with
            | some t => addToSet (st.includeGraph p) t
            | none => st.includeGraph p)
        else st.includeGraph p := by
  induction files generalizing st with
  | nil => simp [runFiles]
  | cons g rest ih =>
    rw [runFiles, List.foldl_cons, ← runFiles, ih]
    by_cases hpg : p = g
    · subst hpg
      rw [analyzeFile_graph]
      simp only [if_pos rfl, List.mem_cons, true_or, if_pos]
      by_cases hpr : p ∈ rest
      · rw [if_pos hpr]
        cases he : edgeOf fs p with
        | none => rfl
        | some t => exact addToSet_idem _ t
      · rw [if_neg hpr]
    · rw [analyzeFile_graph, if_neg hpg]
      by_cases hpr : p ∈ rest <;> simp [List.mem_cons, hpg, hpr]

theorem runFiles_count (fs : FS) (cfg : AnalysisConfig) (cpl : List Char → Nat)
    (files : List FPath) (st : AnalyzerState) (p : FPath) :
    (runFiles fs cfg cpl files st).dependencyCount p
      = st.dependencyCount p
        + files.countP (fun g => edgeOf fs g == some p) := by
  induction files generalizing st with
  | nil => simp [runFiles]
  | cons g rest ih =>
    rw [runFiles, List.foldl_cons, ← runFiles, ih, analyzeFile_count,
      List.countP_cons]
    by_cases he : edgeOf fs g = some p <;> simp [he] <;> omega

theorem analysisState_graph_eq (fs : FS) (cfg : AnalysisConfig)
    (cpl : List Char → Nat) (pats : List String) (g : FPath)
    (hg : g ∈ discoverFiles fs pats) :
    (analysisState fs cfg cpl pats).includeGraph g
      = (match edgeOf fs g with
          | some t => [t]
          | none => []) := by
  rw [analysisState, runFiles_graph, if_pos hg]
  cases edgeOf fs g with
  | none => rfl
  | some t => simp [initState, addToSet]

/-- C6 amended: the adjacency-set half of edge insertion is idempotent
(re-processing the same include leaves the includer's adjacency set
unchanged), while the reverse-dependency counter is a per-occurrence
counter; nevertheless, because the anchored recognizer extracts at most
one include per file, after a full run over a duplicate-free catalog the
reverse-dependency count of any path equals the number of catalog files
with an include edge pointing at it. -/
theorem C6_dependency_count (fs : FS) (cfg : AnalysisConfig)
    (cpl : List Char → Nat) (pats : List String) (st : AnalyzerState)
    (f T : FPath) (n : String)
    (hnd : (discoverFiles fs pats).Nodup) :
    ((processInclude fs f (processInclude fs f st n) n).includeGraph f
      = (processInclude fs f st n).includeGraph f)
    ∧ ((analysisState fs cfg cpl pats).dependencyCount T
      = ((discoverFiles fs pats).filter
          (fun g => decide
            (T ∈ (analysisState fs cfg cpl pats).includeGraph g))).length) := by
  constructor
  · rw [processInclude_graph, processInclude_graph, if_pos rfl, if_pos rfl]
    cases h : resolveIncludePath fs f n with
    | none => rfl
    | some t =>
      show addToSet (addToSet (st.includeGraph f) t) t
        = addToSet (st.includeGraph f) t
      exact addToSet_idem _ t
  · rw [analysisState, runFiles_count]
    rw [show initState.dependencyCount T = 0 from rfl, Nat.zero_add]
    rw [← List.countP_eq_length_filter]
    apply List.countP_congr
    intro g hg
    rw [← analysisState]
    rw [analysisState_graph_eq fs cfg cpl pats g hg]
    cases he : edgeOf fs g with
    | none => exact Iff.rfl
    | some t =>
      rw [show ((some t : Option FPath) == some T) = (t == T) from rfl, beq_iff_eq,
        decide_eq_true_eq, List.mem_singleton]
      exact eq_comm

/-- Witness for C6 on the mutual-include project: with the duplicate-free
catalog of x.h and y.h, the counter of x.h equals the number of catalog
files whose adjacency set contains x.h. -/
theorem C6_dependency_count_witness :
    (discoverFiles fsCycle []).Nodup
    ∧ (((processInclude fsCycle ["m.cpp"]
          (processInclude fsCycle ["m.cpp"] initState "x.h") "x.h").includeGraph
            ["m.cpp"]
        = (processInclude fsCycle ["m.cpp"] initState "x.h").includeGraph
            ["m.cpp"])
      ∧ ((analysisState fsCycle defaultAnalysisConfig zeroComplexity
            []).dependencyCount ["x.h"]
        = ((discoverFiles fsCycle []).filter
            (fun g => decide
              (["x.h"] ∈ (analysisState fsCycle defaultAnalysisConfig
                zeroComplexity []).includeGraph g))).length)) :=
  ⟨by decide,
    C6_dependency_count fsCycle defaultAnalysisConfig zeroComplexity []
      initState ["m.cpp"] ["x.h"] "x.h" (by decide)⟩

theorem head?_mem {α : Type} (l : List α) (x : α) (h : l.head? = some x) :
    x ∈ l := by
  cases l with
  | nil => cases h
  | cons a t =>
    simp only [List.head?] at h
    cases h
    exact List.mem_cons_self _ _

theorem isFile_of_mem_paths (fs : FS) (p : FPath)
    (h : p ∈ fs.map (fun f => f.path)) : isFile fs p = true := by
  obtain ⟨f, hf, rfl⟩ := List.mem_map.1 h
  unfold isFile
  rw [List.any_eq_true]
  exact ⟨f, hf, by rw [beq_iff_eq]⟩

theorem searchExts_exists (fs : FS) (n : String) (exts : List String) (t : FPath)
    (h : searchExts fs n exts = some t) : pathExists fs t = true := by
  induction exts with
  | nil => cases h
  | cons e rest ih =>
    rw [searchExts] at h
    by_cases hp : pathExists fs (splitSlash (if e = "" then n else n ++ e)) = true
    · rw [if_pos hp] at h
      cases h
      exact hp
    · rw [if_neg hp] at h
      cases hh : (rglobFiles fs (splitSlash (if e = "" then n else n ++ e))).head? with
      | some hit =>
        rw [hh] at h
        cases h
        have hmem := head?_mem _ _ hh
        unfold rglobFiles at hmem
        have := List.mem_of_mem_filter hmem
        unfold pathExists
        rw [isFile_of_mem_paths fs t this]
        rfl
      | none =>
        rw [hh] at h
        exact ih h

theorem resolve_exists (fs : FS) (src : FPath) (n : String) (t : FPath)
    (h : resolveIncludePath fs src n = some t) : pathExists fs t = true := by
  unfold resolveIncludePath at h
  by_cases hg : (startsWithChar n '<' && n.data.contains '>') = true
  · rw [if_pos hg] at h; cases h
  · rw [if_neg hg] at h
    by_cases hq : startsWithChar n '"' = true
    · rw [if_pos hq] at h
      by_cases hr : pathExists fs
          (src.dropLast ++ splitSlash (stripChar n '"')) = true
      · rw [if_pos hr] at h
        cases h
        exact hr
      · rw [if_neg hr] at h
        exact searchExts_exists fs _ resolveExts t h
    · rw [if_neg hq] at h
      exact searchExts_exists fs n resolveExts t h

theorem edgeOf_exists (fs : FS) (a t : FPath) (h : edgeOf fs a = some t) :
    pathExists fs t = true := by
  unfold edgeOf at h
  split at h
  · cases h
  · split at h
    · cases h
    · exact resolve_exists fs a _ t h

/-- C5 amended: every edge's source is a catalog file, but its target is
only guaranteed to exist on disk under the project root (as a file or
directory); the resolver checks the filesystem, not the catalog, so a
target need not be a discovered C/C++ file.  An include resolving to
nothing that exists yields no edge. -/
theorem C5_edge_endpoints (fs : FS) (cfg : AnalysisConfig)
    (cpl : List Char → Nat) (pats : List String) (a b : FPath)
    (h : b ∈ (analysisState fs cfg cpl pats).includeGraph a) :
    a ∈ discoverFiles fs pats ∧ pathExists fs b = true := by
  by_cases ha : a ∈ discoverFiles fs pats
  · refine ⟨ha, ?_⟩
    rw [analysisState_graph_eq fs cfg cpl pats a ha] at h
    split at h
    · rename_i t he
      have hb : b = t := by
        cases h with
        | head => rfl
        | tail _ hmem => cases hmem
      subst hb
      exact edgeOf_exists fs a b he
    · cases h
  · rw [analysisState, runFiles_graph, if_neg ha] at h
    simp [initState] at h

/-- Witness for C5: the edge from main.cpp to notes.txt of `fsOutside`
has its source in the catalog and its target on disk. -/
theorem C5_edge_endpoints_witness :
    (["notes.txt"] ∈ (analysisState fsOutside defaultAnalysisConfig zeroComplexity
      []).includeGraph ["main.cpp"])
    ∧ (["main.cpp"] ∈ discoverFiles fsOutside []
      ∧ pathExists fsOutside ["notes.txt"] = true) :=
  ⟨by decide,
    C5_edge_endpoints fsOutside defaultAnalysisConfig zeroComplexity []
      ["main.cpp"] ["notes.txt"] (by decide)⟩

theorem not_unused_in_analysisState (fs : FS) (cfg : AnalysisConfig)
    (cpl : List Char → Nat) (pats : List String) (h : FPath) :
    (⟨IssueKind.unusedHeader, h, Severity.low, []⟩ : Issue)
      ∉ (analysisState fs cfg cpl pats).issues := by
  intro hmem
  obtain ⟨g, hg, higf⟩ := (mem_analysisState_issues fs cfg cpl pats _).1 hmem
  unfold fileIssuesOf at higf
  split at higf
  · rename_i cg hr
    rcases (mem_detectFileIssues_iff cfg cpl g cg _).1 higf with
      ⟨he, -⟩ | ⟨he, -⟩ | ⟨he, -⟩ <;> simp at he
  · cases higf

theorem not_unused_in_circular (cycles : List (List FPath)) (h : FPath) :
    (⟨IssueKind.unusedHeader, h, Severity.low, []⟩ : Issue)
      ∉ circularIssues cycles := by
  intro hmem
  have := mem_circularIssues cycles _ hmem
  cases this

theorem count_eq_one_of_nodup_mem {α : Type} [BEq α] [LawfulBEq α]
    {l : List α} {a : α} (hnd : l.Nodup) (hm : a ∈ l) : l.count a = 1 := by
  induction l with
  | nil => cases hm
  | cons b t ih =>
    rw [List.count_cons]
    obtain ⟨hbt, hndt⟩ := List.nodup_cons.1 hnd
    by_cases hab : b = a
    · subst hab
      rw [List.count_eq_zero_of_not_mem hbt]
      simp
    · have hat : a ∈ t := by
        cases hm with
        | head => exact absurd rfl hab
        | tail _ htl => exact htl
      rw [ih hndt hat]
      simp [hab]

theorem count_map_unused (l : List FPath) (x : FPath) :
    (l.map (fun h =>
        (⟨IssueKind.unusedHeader, h, Severity.low, []⟩ : Issue))).count
      ⟨IssueKind.unusedHeader, x, Severity.low, []⟩ = l.count x := by
  induction l with
  | nil => rfl
  | cons a t ih =>
    rw [List.map_cons, List.count_cons, List.count_cons, ih]
    by_cases hax : a = x
    · subst hax; simp
    · simp [hax, Issue.mk.injEq]

/-- C7 amended: among catalog headers, only those with suffix dot-h,
dot-hpp or dot-hh participate in unused-header detection; such a header
receives exactly one UnusedHeader issue of severity Low precisely when
no catalog file's adjacency set contains it, and every reported unused
header is disjoint from the resolved-target set.  Headers with the other
recognized extensions are never reported. -/
theorem C7_unused_header_amended (fs : FS) (cfg : AnalysisConfig)
    (cpl : List Char → Nat) (pats : List String)
    (setOrder : List FPath → List FPath) (h : FPath)
    (hnd : (discoverFiles fs pats).Nodup)
    (hmem : h ∈ discoverFiles fs pats)
    (hsuf : pathSuffix h = ".h" ∨ pathSuffix h = ".hpp" ∨ pathSuffix h = ".hh") :
    ((analysisIssues fs cfg cpl pats setOrder).count
        ⟨IssueKind.unusedHeader, h, Severity.low, []⟩
      = if isIncludedTarget (discoverFiles fs pats)
            (analysisState fs cfg cpl pats).includeGraph h
          then 0 else 1)
    ∧ ∀ h' ∈ unusedHeaders (discoverFiles fs pats)
          (analysisState fs cfg cpl pats).includeGraph,
        isIncludedTarget (discoverFiles fs pats)
          (analysisState fs cfg cpl pats).includeGraph h' = false := by
  constructor
  · simp only [analysisIssues]
    rw [List.count_append, List.count_append,
      List.count_eq_zero_of_not_mem (not_unused_in_analysisState fs cfg cpl pats h),
      List.count_eq_zero_of_not_mem (not_unused_in_circular _ h)]
    simp only [Nat.zero_add]
    unfold unusedHeaderIssues
    rw [count_map_unused]
    by_cases ht : isIncludedTarget (discoverFiles fs pats)
        (analysisState fs cfg cpl pats).includeGraph h = true
    · rw [if_pos ht]
      rw [List.count_eq_zero]
      intro hm2
      have hpred := (List.mem_filter.1 hm2).2
      rw [ht] at hpred
      cases hpred
    · rw [if_neg ht]
      apply count_eq_one_of_nodup_mem ((hnd.filter _).filter _)
      apply List.mem_filter.2
      refine ⟨?_, ?_⟩
      · apply List.mem_filter.2
        refine ⟨hmem, ?_⟩
        rcases hsuf with hs1 | hs1 | hs1 <;> simp [hs1]
      · rw [Bool.not_eq_true] at ht
        rw [ht]
        rfl
  · intro h' hm'
    have hpred := (List.mem_filter.1 hm').2
    rw [Bool.not_eq_true'] at hpred
    exact hpred

/-- Witness for C7 on the lone-header project: a.h is a duplicate-free
catalog header with the dot-h suffix, so the equivalence applies to it. -/
theorem C7_unused_header_amended_witness :
    ((discoverFiles fsLoneHeader []).Nodup
      ∧ ["a.h"] ∈ discoverFiles fsLoneHeader []
      ∧ pathSuffix ["a.h"] = ".h")
    ∧ ((analysisIssues fsLoneHeader defaultAnalysisConfig zeroComplexity [] id).count
        ⟨IssueKind.unusedHeader, ["a.h"], Severity.low, []⟩
      = if isIncludedTarget (discoverFiles fsLoneHeader [])
            (analysisState fsLoneHeader defaultAnalysisConfig zeroComplexity
              []).includeGraph ["a.h"]
          then 0 else 1) :=
  ⟨⟨by decide, by decide, by decide⟩,
    (C7_unused_header_amended fsLoneHeader defaultAnalysisConfig zeroComplexity [] id
      ["a.h"] (by decide) (by decide) (Or.inl (by decide))).1⟩

theorem estimateBuildTimes_eq (fs : FS) (cpl : List Char → Nat)
    (files : List FPath) (graph : FPath → List FPath) :
    estimateBuildTimes fs cpl files graph
      = files.filterMap (fun f =>
          if isEstimatedSource f then some (f, estValue fs cpl graph f)
          else none) := by
  suffices key : ∀ (fl : List FPath) (acc : List (FPath × ℚ)),
      fl.foldl (fun acc f =>
        if isEstimatedSource f then acc ++ [(f, estValue fs cpl graph f)]
        else acc) acc
        = acc ++ fl.filterMap (fun f =>
            if isEstimatedSource f then some (f, estValue fs cpl graph f)
            else none) by
    rw [estimateBuildTimes, key]
    rfl
  intro fl
  induction fl with
  | nil => intro acc; simp
  | cons g rest ih =>
    intro acc
    rw [List.foldl_cons]
    by_cases hg : isEstimatedSource g
    · rw [if_pos hg, ih, List.filterMap_cons_some (l := rest) (if_pos hg)]
      simp
    · rw [if_neg hg, ih, List.filterMap_cons_none (l := rest) (if_neg hg)]

theorem lookupEstimate_run (fs : FS) (cpl : List Char → Nat)
    (graph : FPath → List FPath) (files : List FPath) (f : FPath)
    (hf : f ∈ files) (hs : isEstimatedSource f) :
    lookupEstimate (estimateBuildTimes fs cpl files graph) f
      = some (estValue fs cpl graph f) := by
  rw [estimateBuildTimes_eq]
  induction files with
  | nil => cases hf
  | cons g rest ih =>
    by_cases hg : isEstimatedSource g
    · rw [List.filterMap_cons_some (l := rest) (if_pos hg)]
      by_cases hgf : g = f
      · subst hgf
        unfold lookupEstimate
        rw [List.find?_cons_of_pos _ (by rw [beq_iff_eq])]
        rfl
      · unfold lookupEstimate
        rw [List.find?_cons_of_neg _ (by simp [hgf])]
        apply ih
        cases hf with
        | head => exact absurd rfl hgf
        | tail _ htl => exact htl
    · rw [List.filterMap_cons_none (l := rest) (if_neg hg)]
      apply ih
      cases hf with
      | head => exact absurd hs hg
      | tail _ htl => exact htl

theorem filterMap_est_fst (fs : FS) (cpl : List Char → Nat)
    (graph : FPath → List FPath) (files : List FPath) :
    ((files.filterMap (fun f =>
        if isEstimatedSource f then some (f, estValue fs cpl graph f)
        else none)).map Prod.fst)
      = files.filter (fun f => decide (isEstimatedSource f)) := by
  induction files with
  | nil => rfl
  | cons g rest ih =>
    by_cases hg : isEstimatedSource g
    · rw [List.filterMap_cons_some (l := rest) (if_pos hg), List.map_cons, ih,
        List.filter_cons_of_pos (p := fun f => decide (isEstimatedSource f))
          (decide_eq_true hg)]
    · rw [List.filterMap_cons_none (l := rest) (if_neg hg), ih,
        List.filter_cons_of_neg (p := fun f => decide (isEstimatedSource f))
          (by simpa using hg)]

theorem filterMap_est_snd (fs : FS) (cpl : List Char → Nat)
    (graph : FPath → List FPath) (files : List FPath) :
    ((files.filterMap (fun f =>
        if isEstimatedSource f then some (f, estValue fs cpl graph f)
        else none)).map Prod.snd)
      = (files.filter (fun f => decide (isEstimatedSource f))).map
          (estValue fs cpl graph) := by
  induction files with
  | nil => rfl
  | cons g rest ih =>
    by_cases hg : isEstimatedSource g
    · rw [List.filterMap_cons_some (l := rest) (if_pos hg), List.map_cons, ih,
        List.filter_cons_of_pos (p := fun f => decide (isEstimatedSource f))
          (decide_eq_true hg), List.map_cons]
    · rw [List.filterMap_cons_none (l := rest) (if_neg hg), ih,
        List.filter_cons_of_neg (p := fun f => decide (isEstimatedSource f))
          (by simpa using hg)]

/-- C8 amended: only files with suffix dot-cpp, dot-cc or dot-cxx are
estimated; for such a file the recorded estimate is the formula on line
count, complexity and outgoing-edge count, an unreadable file getting 0;
and the aggregate is the sum of the recorded estimates over exactly
those files (capital-C and c-plus-plus sources are skipped entirely). -/
theorem C8_estimate_amended (fs : FS) (cfg : AnalysisConfig)
    (cpl : List Char → Nat) (pats : List String) (f : FPath)
    (hf : f ∈ discoverFiles fs pats) (hs : isEstimatedSource f) :
    (lookupEstimate (analysisBuildTimes fs cfg cpl pats) f
      = some (estValue fs cpl (analysisState fs cfg cpl pats).includeGraph f))
    ∧ (∀ c, readFile fs f = some c →
        estValue fs cpl (analysisState fs cfg cpl pats).includeGraph f
          = estimateFormula (countLines c) (cpl c)
              (((analysisState fs cfg cpl pats).includeGraph f).length))
    ∧ (readFile fs f = none →
        estValue fs cpl (analysisState fs cfg cpl pats).includeGraph f = 0)
    ∧ (analysisBuildTimes fs cfg cpl pats).map Prod.fst
        = (discoverFiles fs pats).filter (fun g => decide (isEstimatedSource g))
    ∧ totalEstimatedBuildTime (analysisBuildTimes fs cfg cpl pats)
        = (((discoverFiles fs pats).filter
              (fun g => decide (isEstimatedSource g))).map
            (estValue fs cpl (analysisState fs cfg cpl pats).includeGraph)).sum := by
  refine ⟨?_, ?_, ?_, ?_, ?_⟩
  · rw [analysisBuildTimes]
    exact lookupEstimate_run fs cpl _ _ f hf hs
  · intro c hc
    unfold estValue
    rw [hc]
  · intro hc
    unfold estValue
    rw [hc]
  · rw [analysisBuildTimes, estimateBuildTimes_eq]
    exact filterMap_est_fst fs cpl _ _
  · rw [analysisBuildTimes, estimateBuildTimes_eq, totalEstimatedBuildTime,
      filterMap_est_snd]

/-- Witness for C8 on the `fsOutside` project: main.cpp is an estimated
source file and its recorded estimate is the per-file value. -/
theorem C8_estimate_amended_witness :
    (["main.cpp"] ∈ discoverFiles fsOutside [] ∧ isEstimatedSource ["main.cpp"])
    ∧ lookupEstimate
        (analysisBuildTimes fsOutside defaultAnalysisConfig zeroComplexity [])
        ["main.cpp"]
      = some (estValue fsOutside zeroComplexity
          (analysisState fsOutside defaultAnalysisConfig zeroComplexity
            []).includeGraph ["main.cpp"]) :=
  ⟨⟨by decide, by decide⟩,
    (C8_estimate_amended fsOutside defaultAnalysisConfig zeroComplexity []
      ["main.cpp"] (by decide) (by decide)).1⟩

theorem contains_eq_false_of_not_mem {α : Type} [BEq α] [LawfulBEq α]
    {l : List α} {a : α} (h : a ∉ l) : l.contains a = false := by
  rw [Bool.eq_false_iff]
  intro hc
  rw [List.contains_eq_any_beq, List.any_eq_true] at hc
  obtain ⟨x, hx, hbeq⟩ := hc
  rw [beq_iff_eq] at hbeq
  subst hbeq
  exact h hx

theorem startsWithChar_eq_false {s : String} {c : Char} (h : c ∉ s.data) :
    startsWithChar s c = false := by
  unfold startsWithChar
  cases hd : s.data with
  | nil => rfl
  | cons d ds =>
    rw [Bool.eq_false_iff]
    intro hb
    rw [beq_iff_eq] at hb
    subst hb
    apply h
    rw [hd]
    exact List.mem_cons_self d ds

theorem resolve_eq_search (fs : FS) (src : FPath) (n : String)
    (hgt : '>' ∉ n.data) (hq : '"' ∉ n.data) :
    resolveIncludePath fs src n = searchExts fs n resolveExts := by
  unfold resolveIncludePath
  rw [contains_eq_false_of_not_mem hgt, startsWithChar_eq_false hq]
  simp

theorem searchExts_none_iff (fs : FS) (n : String) (exts : List String) :
    searchExts fs n exts = none ↔
      ∀ ext ∈ exts,
        pathExists fs (splitSlash (if ext = "" then n else n ++ ext)) = false
        ∧ rglobFiles fs (splitSlash (if ext = "" then n else n ++ ext)) = [] := by
  induction exts with
  | nil => simp [searchExts]
  | cons e rest ih =>
    rw [searchExts]
    by_cases hp : pathExists fs (splitSlash (if e = "" then n else n ++ e)) = true
    · rw [if_pos hp]
      constructor
      · intro hfalse; cases hfalse
      · intro hall
        have h1 := (hall e (List.mem_cons_self e rest)).1
        rw [hp] at h1
        cases h1
    · rw [if_neg hp]
      have hp' : pathExists fs (splitSlash (if e = "" then n else n ++ e)) = false := by
        rw [Bool.eq_false_iff]; exact hp
      cases hh : (rglobFiles fs (splitSlash (if e = "" then n else n ++ e))).head? with
      | some hit =>
        constructor
        · intro hfalse; cases hfalse
        · intro hall
          have h2 := (hall e (List.mem_cons_self e rest)).2
          rw [h2] at hh
          cases hh
      | none =>
        have hnil : rglobFiles fs (splitSlash (if e = "" then n else n ++ e)) = [] :=
          List.head?_eq_none_iff.1 hh
        rw [ih]
        constructor
        · intro hall ext hext
          cases hext with
          | head => exact ⟨hp', hnil⟩
          | tail _ htl => exact hall ext htl
        · intro hall ext hext
          exact hall ext (List.mem_cons_of_mem e hext)

theorem matchIncludeAt_name (content : List Char) (nm : String) (rest : List Char)
    (h : matchIncludeAt content = some (nm, rest)) :
    nm.data ≠ [] ∧ ∀ c ∈ nm.data, c ≠ '>' ∧ c ≠ '"' := by
  unfold matchIncludeAt at h
  split at h
  · cases h
  · split at h
    · split at h
      · cases h
      · split at h
        · cases h
        · split at h
          · split at h
            · cases h
            · split at h
              · rename_i s4 hcond e s6 hif
                rw [Option.some.injEq, Prod.mk.injEq] at h
                obtain ⟨h1, -⟩ := h
                subst h1
                refine ⟨hif.2, ?_⟩
                intro c hcm
                have hpc := List.mem_takeWhile_imp hcm
                rw [Bool.not_eq_true', Bool.or_eq_false_iff,
                  beq_eq_false_iff_ne, beq_eq_false_iff_ne] at hpc
                exact hpc
              · cases h
          · cases h
    · cases h

theorem findIncludes_name (content : List Char) (n : String)
    (h : n ∈ findIncludes content) :
    n.data ≠ [] ∧ ∀ c ∈ n.data, c ≠ '>' ∧ c ≠ '"' := by
  unfold findIncludes at h
  split at h
  · rename_i nm r hm
    rw [List.mem_singleton] at h
    subst h
    exact matchIncludeAt_name content n r hm
  · cases h

/-- C2 amended: the recognizer always hands the resolver a
delimiter-stripped name, so the quote-guarded step relative to the
including file's directory never applies and resolution is independent
of the including file; the candidates actually tried are, per suffix in
order (empty, dot-h, dot-hpp, dot-hh, dot-hxx), first the project-root
candidate and then the recursive search for that same suffixed name; a
name existing directly under the root wins immediately; and the include
resolves to nothing exactly when every suffixed candidate neither exists
under the root nor matches any file in the recursive search - in which
case processing the include leaves the graph and the
reverse-dependency counters untouched (frequency only). -/
theorem C2_resolution_amended (fs : FS) (src src' : FPath) (content : List Char)
    (n : String) (hrec : n ∈ findIncludes content) :
    (resolveIncludePath fs src n = searchExts fs n resolveExts)
    ∧ (resolveIncludePath fs src n = resolveIncludePath fs src' n)
    ∧ (pathExists fs (splitSlash n) = true →
        resolveIncludePath fs src n = some (splitSlash n))
    ∧ (resolveIncludePath fs src n = none ↔
        ∀ ext ∈ resolveExts,
          pathExists fs (splitSlash (if ext = "" then n else n ++ ext)) = false
          ∧ rglobFiles fs (splitSlash (if ext = "" then n else n ++ ext)) = [])
    ∧ (∀ st p, resolveIncludePath fs src n = none →
        (processInclude fs src st n).includeGraph p = st.includeGraph p
        ∧ (processInclude fs src st n).dependencyCount p
            = st.dependencyCount p) := by
  obtain ⟨-, hchars⟩ := findIncludes_name content n hrec
  have hgt : '>' ∉ n.data := fun hm => (hchars _ hm).1 rfl
  have hq : '"' ∉ n.data := fun hm => (hchars _ hm).2 rfl
  have hs := resolve_eq_search fs src n hgt hq
  have hs' := resolve_eq_search fs src' n hgt hq
  refine ⟨hs, by rw [hs, hs'], ?_, ?_, ?_⟩
  · intro hp
    rw [hs]
    simp [resolveExts, searchExts, hp]
  · rw [hs]
    exact searchExts_none_iff fs n resolveExts
  · intro st p hnone
    refine ⟨?_, ?_⟩
    · rw [processInclude_graph, hnone]
      by_cases hp : p = src <;> simp [hp]
    · rw [processInclude_count, hnone]
      simp

/-- Witness for C2 amended on the shadowed-name project: the recognizer
yields the quoteless name, resolution ignores the including file and
hits the project-root foo.h first. -/
theorem C2_resolution_amended_witness :
    ("foo.h" ∈ findIncludes "#include \"foo.h\"".data
      ∧ pathExists fsShadow (splitSlash "foo.h") = true)
    ∧ resolveIncludePath fsShadow ["src", "main.cpp"] "foo.h"
        = resolveIncludePath fsShadow ["other.cpp"] "foo.h"
    ∧ resolveIncludePath fsShadow ["src", "main.cpp"] "foo.h"
        = some (splitSlash "foo.h") :=
  ⟨⟨by decide, by decide⟩,
    (C2_resolution_amended fsShadow ["src", "main.cpp"] ["other.cpp"]
      "#include \"foo.h\"".data "foo.h" (by decide)).2.1,
    (C2_resolution_amended fsShadow ["src", "main.cpp"] ["other.cpp"]
      "#include \"foo.h\"".data "foo.h" (by decide)).2.2.1 (by decide)⟩

theorem matchIncludeAt_delims (d2 : Char) (name rest : List Char)
    (h2 : d2 = '>' ∨ d2 = '"') (hn : name ≠ [])
    (hpred : ∀ c ∈ name, (!(c == '>' || c == '"')) = true) :
    ∀ d1, d1 = '<' ∨ d1 = '"' →
      matchIncludeAt ("#include ".data ++ d1 :: (name ++ d2 :: rest))
        = some (String.mk name, rest) := by
  have hpd2 : ¬ ((!(d2 == '>' || d2 == '"')) = true) := by
    rcases h2 with h | h <;> subst h <;> decide
  have htw : (name ++ d2 :: rest).takeWhile (fun ch => !(ch == '>' || ch == '"'))
      = name := by
    rw [List.takeWhile_append_of_pos hpred,
      List.takeWhile_cons_of_neg (p := fun ch => !(ch == '>' || ch == '"')) hpd2,
      List.append_nil]
  intro d1 h1
  rcases h1 with h | h <;> subst h
  · show (match ((name ++ d2 :: rest).drop
        ((name ++ d2 :: rest).takeWhile
          (fun ch => !(ch == '>' || ch == '"'))).length) with
      | [] => (none : Option (String × List Char))
      | e :: s6 =>
        if (e = '>' ∨ e = '"') ∧
            (name ++ d2 :: rest).takeWhile
              (fun ch => !(ch == '>' || ch == '"')) ≠ [] then
          some (String.mk ((name ++ d2 :: rest).takeWhile
            (fun ch => !(ch == '>' || ch == '"'))), s6)
        else none) = some (String.mk name, rest)
    rw [htw, List.drop_left]
    show (if (d2 = '>' ∨ d2 = '"') ∧ name ≠ [] then
        some (String.mk name, rest) else none) = some (String.mk name, rest)
    rw [if_pos ⟨h2, hn⟩]
  · show (match ((name ++ d2 :: rest).drop
        ((name ++ d2 :: rest).takeWhile
          (fun ch => !(ch == '>' || ch == '"'))).length) with
      | [] => (none : Option (String × List Char))
      | e :: s6 =>
        if (e = '>' ∨ e = '"') ∧
            (name ++ d2 :: rest).takeWhile
              (fun ch => !(ch == '>' || ch == '"')) ≠ [] then
          some (String.mk ((name ++ d2 :: rest).takeWhile
            (fun ch => !(ch == '>' || ch == '"'))), s6)
        else none) = some (String.mk name, rest)
    rw [htw, List.drop_left]
    show (if (d2 = '>' ∨ d2 = '"') ∧ name ≠ [] then
        some (String.mk name, rest) else none) = some (String.mk name, rest)
    rw [if_pos ⟨h2, hn⟩]

theorem findIncludes_delims (d1 d2 : Char) (name rest : List Char)
    (h1 : d1 = '<' ∨ d1 = '"') (h2 : d2 = '>' ∨ d2 = '"')
    (hn : name ≠ []) (hc : ∀ c ∈ name, c ≠ '>' ∧ c ≠ '"') :
    findIncludes ("#include ".data ++ d1 :: (name ++ d2 :: rest))
      = [String.mk name] := by
  have hpred : ∀ c ∈ name, (!(c == '>' || c == '"')) = true := by
    intro c hcm
    obtain ⟨hgt, hqc⟩ := hc c hcm
    simp [hgt, hqc]
  rw [findIncludes, matchIncludeAt_delims d2 name rest h2 hn hpred d1 h1]

/-- C10: the recognizer accepts any combination of opening and closing
delimiters (angle bracket or double quote): a directive written with
mismatched delimiters is parsed to the same delimiter-stripped name as
the well-formed quoted directive, so the whole downstream treatment -
frequency counting and project-file resolution - is literally identical,
and the frequency counter of the parsed name is incremented by one. -/
theorem C10_delimiter_mix (d1 d2 : Char) (name rest : List Char)
    (h1 : d1 = '<' ∨ d1 = '"') (h2 : d2 = '>' ∨ d2 = '"')
    (hn : name ≠ []) (hc : ∀ c ∈ name, c ≠ '>' ∧ c ≠ '"') :
    (findIncludes ("#include ".data ++ d1 :: (name ++ d2 :: rest))
      = [String.mk name])
    ∧ (findIncludes ("#include ".data ++ d1 :: (name ++ d2 :: rest))
      = findIncludes ("#include ".data ++ '"' :: (name ++ '"' :: rest)))
    ∧ (∀ fs f st,
        ((findIncludes ("#include ".data ++ d1 :: (name ++ d2 :: rest))).foldl
            (processInclude fs f) st).headerFrequency (String.mk name)
          = st.headerFrequency (String.mk name) + 1) := by
  have hmain := findIncludes_delims d1 d2 name rest h1 h2 hn hc
  have hquoted := findIncludes_delims '"' '"' name rest (Or.inr rfl) (Or.inr rfl)
    hn hc
  refine ⟨hmain, by rw [hmain, hquoted], ?_⟩
  intro fs f st
  rw [hmain, List.foldl_cons, List.foldl_nil]
  exact processInclude_freq_self fs f st (String.mk name)

/-- Witness for C10: the mismatched directive opening with an angle
bracket and closing with a quote parses to the name pch.h exactly as the
quoted form does. -/
theorem C10_delimiter_mix_witness :
    (('<' : Char) = '<' ∨ ('<' : Char) = '"')
    ∧ findIncludes ("#include ".data ++ '<' :: ("pch.h".data ++ '"' :: []))
        = [String.mk "pch.h".data] :=
  ⟨Or.inl rfl,
    (C10_delimiter_mix '<' '"' "pch.h".data [] (Or.inl rfl) (Or.inr rfl)
      (by decide) (by decide)).1⟩

end CppAnalyzer
